import Mathlib

/-!
Verification development for the go-tss coordination layer.

The Go sources are shallowly embedded: machine integers become `Nat`/`Int`
with explicit modular reduction where overflow matters, byte slices become
`List ℕ`, Go maps become association lists with insert-or-overwrite update,
fallible functions return `Except`/`Option`, and the message-processing
methods of the `Tss` struct become explicit state-passing functions on a
`TssState` record.  SHA256 (`bytesToHashString`) is kept abstract as a
function parameter `hashFn`, since no code path under verification inspects
the hash beyond equality.
-/

/-! ## Wire codec (`p2p` package: `ReadStreamWithBuffer` / `WriteStreamWithBuffer`) -/

/-- `LengthHeader = 4` : how many bytes are used as the frame header. -/
def LengthHeader : ℕ := 4

/-- `MaxPayload = math.MaxUint32` from the source. -/
def MaxPayload : ℕ := 4294967295

/-- The 4-byte little-endian encoding produced by `binary.LittleEndian.PutUint32`. -/
def encodeLE4 (n : ℕ) : List ℕ :=
  [n % 256, n / 256 % 256, n / 65536 % 256, n / 16777216 % 256]

/-- The value read by `binary.LittleEndian.Uint32` from four header bytes. -/
def decodeLE4 (b0 b1 b2 b3 : ℕ) : ℕ :=
  b0 + 256 * b1 + 65536 * b2 + 16777216 * b3

/-- The distinct error exits of `ReadStreamWithBuffer`. -/
inductive ReadErr where
  | head
  | exceedMax
  | shortRead
deriving DecidableEq

/-- `ReadStreamWithBuffer`: read a 4-byte little-endian length header, reject a
length above `MaxPayload`, then read exactly that many payload bytes.  The
stream is modelled as the list of bytes it will deliver. -/
def ReadStreamWithBuffer (stream : List ℕ) : Except ReadErr (List ℕ) :=
  match stream with
  | b0 :: b1 :: b2 :: b3 :: rest =>
    let length := decodeLE4 b0 b1 b2 b3
    if MaxPayload < length then .error .exceedMax
    else
      let dataBuf := rest.take length
      if dataBuf.length = length then .ok dataBuf else .error .shortRead
  | _ => .error .head

/-- `WriteStreamWithBuffer`: emit `uint32(len(msg))` in little-endian followed by
the payload.  The `uint32` conversion reduces the length mod `2^32`; I/O errors
of the underlying stream are outside the model (the buffered writer itself
always accepts the bytes). -/
def WriteStreamWithBuffer (msg : List ℕ) : List ℕ :=
  encodeLE4 (msg.length % 4294967296) ++ msg

/-! ## Threshold (`common` package, `GetThreshold`) -/

/-- Round-half-to-even of a rational to an integer: the tie-breaking rule of
IEEE-754 round-to-nearest. -/
def roundHalfEven (x : ℚ) : ℤ :=
  if x - ⌊x⌋ < 1 / 2 then ⌊x⌋
  else if 1 / 2 < x - ⌊x⌋ then ⌊x⌋ + 1
  else if ⌊x⌋ % 2 = 0 then ⌊x⌋ else ⌊x⌋ + 1

/-- IEEE-754 binary64 rounding (round to nearest, ties to even) of a
nonnegative rational, as a rational: the significand `q / 2^(log2 q - 52)`
lies in `[2^52, 2^53)` and is rounded half-to-even.  Exponent-range limits
(overflow, subnormals) lie far outside anything `GetThreshold` computes and
are not modelled; nonpositive arguments (only `0` arises) map to `0`. -/
def rne (q : ℚ) : ℚ :=
  if q ≤ 0 then 0
  else (2 : ℚ) ^ (Int.log 2 q - 52) *
    roundHalfEven (q / (2 : ℚ) ^ (Int.log 2 q - 52))

/-- `GetThreshold`: reject a negative input, otherwise compute
`int(math.Ceil(float64(value)*2.0/3.0)) - 1`.  Each floating-point step
rounds to binary64: the `float64(value)` conversion, the product with `2.0`
and the quotient by `3.0` are each passed through `rne`; `math.Ceil` and the
final `int` conversion are exact on the values that reach them and are
modelled by `Int.ceil`. -/
def GetThreshold (value : ℤ) : Except Unit ℤ :=
  if value < 0 then .error ()
  else .ok (⌈rne (rne (rne ((value : ℚ)) * 2) / 3)⌉ - 1)

/-! ## Blame records (`common/blame.go` and the `blame` package in `tss/keygen.go`) -/

/-- `BlameNode` / `blame.Node`: a blamed public key with optional evidence.
`nil` byte slices are identified with empty ones, as `bytes.Equal` does. -/
structure BlameNode where
  Pubkey : String
  BlameData : List ℕ
  BlameSignature : List ℕ
deriving DecidableEq

/-- `blame.Node.Equal` (`src/tss/keygen.go`): equality on the pair
(Pubkey, BlameSignature). -/
def Node.Equal (bn node : BlameNode) : Bool :=
  bn.Pubkey == node.Pubkey && bn.BlameSignature == node.BlameSignature

/-- `AddBlameNodes` from `src/common/blame.go`: a node is skipped when some
already-recorded entry has a `bytes.Equal` `BlameSignature`; the `Pubkey` is
not compared. -/
def commonAddBlameNodes (b : List BlameNode) (nodePubKeys : List BlameNode) : List BlameNode :=
  nodePubKeys.foldl
    (fun acc node =>
      if acc.any (fun item => item.BlameSignature == node.BlameSignature) then acc
      else acc ++ [node])
    b

/-- `AddBlameNodes` from the `blame` package (`src/tss/keygen.go`): a node is
skipped when some already-recorded entry is `Node.Equal` to it. -/
def blameAddBlameNodes (b : List BlameNode) (newBlameNodes : List BlameNode) : List BlameNode :=
  newBlameNodes.foldl
    (fun acc node =>
      if acc.any (fun el => Node.Equal node el) then acc
      else acc ++ [node])
    b

/-! ## Signature serialization (`keysign/notifier.go`) -/

/-- The order `N` of the secp256k1 curve (`btcec.S256().N`). -/
def secpN : ℕ :=
  115792089237316195423570985008687907852837564279074904382605163141518161494337

/-- `big.Int.Bytes()`: the minimal big-endian byte representation of a
natural number (empty for zero). -/
def toBytesBE (n : ℕ) : List ℕ :=
  if h : n = 0 then [] else toBytesBE (n / 256) ++ [n % 256]
termination_by n
decreasing_by exact Nat.div_lt_self (Nat.pos_of_ne_zero h) (by norm_num)

/-- Left-pad a byte string with zeros to 32 bytes, as the `copy` into
`sigBytes[32-len:32]` does. -/
def pad32 (l : List ℕ) : List ℕ :=
  List.replicate (32 - l.length) 0 ++ l

/-- `getSignatureBytes`: canonicalize `S` to the low half of the order
(`if S.Cmp(halfOrder) == 1 { S = N - S }` with `halfOrder = N >> 1`), then
serialize `R || S` into a 64-byte buffer, each component copied into the upper
part of its 32-byte slot.  When a component needs more than 32 bytes the Go
slice expression `sigBytes[32-len(rBytes):32]` has a negative lower bound and
the program panics; this is modelled as `none`. -/
def getSignatureBytes (R S : ℕ) : Option (List ℕ) :=
  let halfOrder := secpN / 2
  let Sfinal := if halfOrder < S then secpN - S else S
  let rBytes := toBytesBE R
  let sBytes := toBytesBE Sfinal
  if rBytes.length ≤ 32 ∧ sBytes.length ≤ 32 then
    some (List.replicate (32 - rBytes.length) 0 ++ rBytes ++
          (List.replicate (32 - sBytes.length) 0 ++ sBytes))
  else none

/-! ## Notifier (`keysign/notifier.go`)

External collaborators are kept abstract: the bech32 decoding of the pool
public key is a boolean parameter `decodeOk`, and `pubKey.VerifyBytes` is a
predicate parameter `verify` on the message and its signature entry.  The
signature map is keyed by `hex.EncodeToString(el.M)`; since hex encoding is
injective, looking up `hex(m)` in the map is equivalent to matching on the
raw bytes of `M`, with the last entry winning as for a Go map build. -/

/-- One `SignatureData{R, S, M}` entry of a batch. -/
structure SignatureData where
  M : List ℕ
  R : List ℕ
  S : List ℕ
deriving DecidableEq

/-- The entry `signatureMap[hex(m)]` after the whole batch has been inserted:
the last element of the batch whose `M` equals `m`. -/
def lastEntryFor (sigs : List SignatureData) (m : List ℕ) : Option SignatureData :=
  (sigs.filter (fun el => el.M == m)).getLast?

/-- The per-message check of the verification loop: the map entry for the
message exists and `VerifyBytes` accepts it. -/
def entryVerifies (verify : List ℕ → SignatureData → Bool)
    (sigs : List SignatureData) (m : List ℕ) : Bool :=
  match lastEntryFor sigs m with
  | none => false
  | some el => verify m el

/-- `Notifier.verifySignature`: decode the pool key, require the batch length
to match the requested messages, then run the lookup-and-verify loop. -/
def verifySignature (decodeOk : Bool) (verify : List ℕ → SignatureData → Bool)
    (messages : List (List ℕ)) (sigs : List SignatureData) : Except Unit Bool :=
  if decodeOk = false then .error ()
  else if sigs.length = messages.length then
    .ok (messages.all (fun m => entryVerifies verify sigs m))
  else .error ()

/-- The notifier state: the requested message hashes plus the capacity-1
response channel, modelled by its buffer slot and a closed flag.  Nothing in
`notifier.go` ever closes the channel, so `respClosed` stays `false`. -/
structure Notifier where
  messages : List (List ℕ)
  respBuf : Option (List SignatureData)
  respClosed : Bool
deriving DecidableEq

/-- Result of one `ProcessSignature` call: either it returns (with the
notifier in a new state), or it blocks forever on the channel send. -/
inductive ProcessResult where
  | done (r : Except Unit Bool) (st : Notifier)
  | blocked

/-- `Notifier.ProcessSignature`: verify the batch; on verification error
propagate the error, on mismatch return `false`, and on success send the
batch on the capacity-1 channel and return `true`.  A send on a full
capacity-1 channel blocks. -/
def ProcessSignature (decodeOk : Bool) (verify : List ℕ → SignatureData → Bool)
    (n : Notifier) (data : List SignatureData) : ProcessResult :=
  match verifySignature decodeOk verify n.messages data with
  | .error e => .done (.error e) n
  | .ok false => .done (.ok false) n
  | .ok true =>
    match n.respBuf with
    | none => .done (.ok true) { n with respBuf := some data }
    | some _ => .blocked

/-! ## Broadcast cache / confirm engine (`part_007`, second `Tss` version)

`processTSSMsg` / `processVerMsg` run against a `Tss` value whose
`keyGenInfo` is set (the dispatcher `processOneMessage` queues messages
until the local party is ready, so both methods only execute in that
state).  The parts of this repository that are referenced but not under
`src/` are modelled from the spec and documented as such below:
`WireMessage.GetCacheKey` (spec §3: the cache key is the pair
(round-identifier, sender-party-ID)) and the `LocalCacheItem` helpers
`UpdateConfirmList` / `TotalConfirmParty` (spec §3: `ConfirmedList` is a
map peer-ID → reported hash, so recording a confirmation is a map
insert-or-overwrite and the total is the map size). -/

/-- A wire message: routing (`From` party id, `IsBroadcast`), the round
identifier and the opaque payload bytes. -/
structure WireMessage where
  fromId : String
  isBroadcast : Bool
  roundInfo : String
  message : List ℕ
deriving DecidableEq

/-- Modelled from the spec: `WireMessage.GetCacheKey` returns the pair
(round-identifier, sender-party-ID). -/
def getCacheKey (w : WireMessage) : String × String :=
  (w.roundInfo, w.fromId)

/-- `BroadcastConfirmMessage{PartyID, Key, Hash}`. -/
structure BroadcastConfirmMessage where
  partyID : String
  key : String × String
  hash : String
deriving DecidableEq

/-- `LocalCacheItem`: the stored wire message (possibly not yet received),
its payload hash, and the confirmations received so far. -/
structure LocalCacheItem where
  msg : Option WireMessage
  hash : String
  confirmedList : List (String × String)
deriving DecidableEq

/-- Modelled from the spec: `LocalCacheItem.UpdateConfirmList` records
`(party → hash)` in the `ConfirmedList` map (overwriting any previous entry
of the same party). -/
def updateConfirmList (l : List (String × String)) (p h : String) : List (String × String) :=
  if l.any (fun e => e.1 == p) then
    l.map (fun e => if e.1 == p then (p, h) else e)
  else l ++ [(p, h)]

/-- The confirm-engine state of one `Tss` instance: the party-ID set of the
ceremony (`keyGenInfo.PartyIDMap` keys), the local party ID, the
`unConfirmedMessages` cache, the sequence of messages handed to the local
crypto party by `updateLocal` (`Party.UpdateFromBytes`), and the
`VerMessage`s pushed to the broadcast channel. -/
structure TssState where
  partyIDMap : List String
  localPartyID : String
  unConfirmedMessages : List ((String × String) × LocalCacheItem)
  delivered : List WireMessage
  broadcastOut : List BroadcastConfirmMessage
deriving DecidableEq

/-- `tryGetLocalCacheItem`. -/
def tryGetLocalCacheItem (st : TssState) (key : String × String) : Option LocalCacheItem :=
  st.unConfirmedMessages.lookup key

/-- `updateLocalUnconfirmedMessages`: store (or overwrite) the cache item
under its key. -/
def updateLocalUnconfirmedMessages (st : TssState) (key : String × String)
    (item : LocalCacheItem) : TssState :=
  if st.unConfirmedMessages.any (fun e => e.1 == key) then
    { st with unConfirmedMessages :=
        st.unConfirmedMessages.map (fun e => if e.1 == key then (key, item) else e) }
  else
    { st with unConfirmedMessages := st.unConfirmedMessages ++ [(key, item)] }

/-- `removeKey`: drop the cache item. -/
def removeKey (st : TssState) (key : String × String) : TssState :=
  { st with unConfirmedMessages :=
      st.unConfirmedMessages.filter (fun e => !(e.1 == key)) }

/-- `updateLocal`: look the sender up in `PartyIDMap` and apply the wire
message to the local crypto party (`UpdateFromBytes`), which we record in
`delivered`. -/
def updateLocal (st : TssState) (w : WireMessage) : Except Unit TssState :=
  if st.partyIDMap.contains w.fromId then
    .ok { st with delivered := st.delivered ++ [w] }
  else .error ()

/-- `processVerMsg` (`part_007` lines 964-996): create the cache item if
absent, record the confirmation, and when the confirm count reaches
`|PartyIDMap| - 1` with a stored message, deliver the stored message to the
local party and evict the item.  No hash comparison is performed.  Returns
the new state together with the error result of the call (mutations made
before an error are kept, as they are on the shared Go structures). -/
def processVerMsg (st : TssState) (b : BroadcastConfirmMessage) :
    TssState × Option Unit :=
  let key := b.key
  let item : LocalCacheItem :=
    match tryGetLocalCacheItem st key with
    | none => { msg := none, hash := b.hash, confirmedList := [] }
    | some it => it
  let item2 := { item with confirmedList := updateConfirmList item.confirmedList b.partyID b.hash }
  let st1 := updateLocalUnconfirmedMessages st key item2
  if item2.confirmedList.length = st.partyIDMap.length - 1 then
    match item2.msg with
    | some m =>
      match updateLocal st1 m with
      | .ok st2 => (removeKey st2 key, none)
      | .error e => (st1, some e)
    | none => (st1, none)
  else (st1, none)

/-- `processTSSMsg` (`part_007` lines 999-1060): unicast messages go straight
to the local party; a broadcast message is stored in the cache, the local
confirmation is recorded, the stored message is delivered once the confirm
count reaches `|PartyIDMap| - 1` (without evicting the item), and finally a
`VerMessage` with the payload hash is broadcast.  When the delivery path is
taken with an absent stored message the Go code passes a nil pointer to
`UpdateFromBytes`; that branch is modelled as an error (it is unreachable:
this path always stores the message first). -/
def processTSSMsg (hashFn : List ℕ → String) (st : TssState) (w : WireMessage) :
    TssState × Option Unit :=
  if w.isBroadcast = false then
    match updateLocal st w with
    | .ok st2 => (st2, none)
    | .error e => (st, some e)
  else
    let msgHash := hashFn w.message
    let key := getCacheKey w
    let bcm : BroadcastConfirmMessage := { partyID := st.localPartyID, key := key, hash := msgHash }
    let item : LocalCacheItem :=
      match tryGetLocalCacheItem st key with
      | none => { msg := some w, hash := msgHash, confirmedList := [] }
      | some it =>
        if it.msg = none then { it with msg := some w, hash := msgHash } else it
    let item2 := { item with confirmedList := updateConfirmList item.confirmedList st.localPartyID msgHash }
    let st1 := updateLocalUnconfirmedMessages st key item2
    if item2.confirmedList.length = st.partyIDMap.length - 1 then
      match item2.msg with
      | some m =>
        match updateLocal st1 m with
        | .ok st2 => ({ st2 with broadcastOut := st2.broadcastOut ++ [bcm] }, none)
        | .error e => (st1, some e)
      | none => (st1, some ())
    else ({ st1 with broadcastOut := st1.broadcastOut ++ [bcm] }, none)

/-- The two inbound message kinds handled by the confirm engine. -/
inductive TssEvent where
  | tss (w : WireMessage)
  | ver (b : BroadcastConfirmMessage)

/-- Process one inbound wrapped message (the `TSSMsg` / `VerMsg` arms of
`processOneMessage`). -/
def processOneEvent (hashFn : List ℕ → String) (st : TssState) (e : TssEvent) :
    TssState × Option Unit :=
  match e with
  | .tss w => processTSSMsg hashFn st w
  | .ver b => processVerMsg st b

/-- Run a sequence of inbound messages through the engine, as the
`processComm` loop does, collecting the per-message error results. -/
def processEvents (hashFn : List ℕ → String) (st : TssState) :
    List TssEvent → TssState × List (Option Unit)
  | [] => (st, [])
  | e :: rest =>
    let r := processOneEvent hashFn st e
    let rest' := processEvents hashFn r.1 rest
    (rest'.1, r.2 :: rest'.2)

/-! ## Hash-check blame (`part_001`, package `common`) -/

/-- The bucket of a hash in the `hashToPeers` map built by `findBlamePeers`:
all confirmers of the cache item that reported this hash.  (Go map iteration
order is unspecified; the blame lists below are read up to membership.) -/
def bucketOf (l : List (String × String)) (h : String) : List String :=
  (l.filter (fun e => e.2 == h)).map Prod.fst

/-- The distinct hash values appearing in a confirmed list, in order of first
appearance: the key set of `hashToPeers`. -/
def hashKeysOf (l : List (String × String)) : List String :=
  (l.map Prod.snd).dedup

/-- `findBlamePeers` (`part_001` lines 181-229): partition the confirmers by
reported hash; with `threshold = GetThreshold(|PartyIDMap|)`, if the bucket
of our own hash is smaller than the threshold, blame the members of every
other bucket that is also smaller than the threshold plus the data owner;
otherwise blame every confirmer outside our bucket plus the data owner. -/
def findBlamePeers (partyCount : ℕ) (item : LocalCacheItem) (dataOwnerP2PID : String) :
    Except Unit (List String) :=
  match GetThreshold (partyCount : ℤ) with
  | .error e => .error e
  | .ok threshold =>
    let ourHash := item.hash
    let members := bucketOf item.confirmedList ourHash
    if (members.length : ℤ) < threshold then
      .ok (((hashKeysOf item.confirmedList).filter
              (fun k => !(k == ourHash) &&
                decide (((bucketOf item.confirmedList k).length : ℤ) < threshold))).flatMap
            (fun k => bucketOf item.confirmedList k) ++ [dataOwnerP2PID])
    else
      .ok (((hashKeysOf item.confirmedList).filter (fun k => !(k == ourHash))).flatMap
            (fun k => bucketOf item.confirmedList k) ++ [dataOwnerP2PID])

/-- The two hash-check failure causes dispatched on by
`getHashCheckBlamePeers` (`ErrHashFromOwner` / `ErrHashFromPeer`), plus the
default arm. -/
inductive HashCheckError where
  | hashFromOwner
  | hashFromPeer
  | other
deriving DecidableEq

/-- `getHashCheckBlamePeers` (`part_001` lines 231-253): resolve the data
owner (the `From` party of the stored message) to a peer ID; under
`ErrHashFromOwner` blame the owner alone, under `ErrHashFromPeer` defer to
`findBlamePeers`.  The Go code dereferences `localCacheItem.Msg` without a
nil check; the nil case is modelled as an error. -/
def getHashCheckBlamePeers (partyIDtoP2PID : List (String × String))
    (partyIDMap : List String) (item : LocalCacheItem) (hashCheckErr : HashCheckError) :
    Except Unit (List String) :=
  match item.msg with
  | none => .error ()
  | some m =>
    match partyIDtoP2PID.lookup m.fromId with
    | none => .error ()
    | some dataOwnerP2PID =>
      match hashCheckErr with
      | .hashFromOwner => .ok [dataOwnerP2PID]
      | .hashFromPeer => findBlamePeers partyIDMap.length item dataOwnerP2PID
      | .other => .error ()

/-! ## Party coordinator (`src/p2p/party_coordinator.go` and `part_004`)

`ceremony.go` is not under `src/`; the `Ceremony` helpers used by
`onJoinParty` are modelled from the spec (§4.4): `ValidPeer` checks the
allowed peer set, `IsPartyExist` checks whether the peer is already
recorded, `IsReady` holds once the number of recorded peers is at least
`threshold+1` and every required peer has arrived, and `GetParties` returns
the recorded peers. -/

/-- A `Ceremony` record as the leader keeps it. -/
structure Ceremony where
  id : String
  threshold : ℕ
  joinPartyRequests : List String
  peers : List String
deriving DecidableEq

/-- Modelled from the spec: the sender must be in the allowed peer set. -/
def Ceremony.ValidPeer (c : Ceremony) (p : String) : Bool :=
  c.peers.contains p

/-- Modelled from the spec: whether the peer is already recorded. -/
def Ceremony.IsPartyExist (c : Ceremony) (p : String) : Bool :=
  c.joinPartyRequests.contains p

/-- Modelled from the spec: ready once at least `threshold+1` peers are
recorded and every allowed peer has arrived. -/
def Ceremony.IsReady (c : Ceremony) : Bool :=
  c.threshold + 1 ≤ c.joinPartyRequests.length &&
    c.peers.all (fun p => c.joinPartyRequests.contains p)

/-- Modelled from the spec: the recorded participant list. -/
def Ceremony.GetParties (c : Ceremony) : List String :=
  c.joinPartyRequests

/-- A join-party request: the ceremony (message) ID and the remote peer. -/
structure JoinParty where
  msgID : String
  peer : String
deriving DecidableEq

/-- Error results of `onJoinParty`. -/
inductive JoinErr where
  | leaderNotReady
  | unknownPeer
deriving DecidableEq

/-- Insert-or-overwrite on the leader's ceremonies map. -/
def upsertCeremony (cs : List (String × Ceremony)) (id : String) (c : Ceremony) :
    List (String × Ceremony) :=
  if cs.any (fun e => e.1 == id) then
    cs.map (fun e => if e.1 == id then (id, c) else e)
  else cs ++ [(id, c)]

/-- `onJoinParty` from `src/p2p/party_coordinator.go` (lines 143-178): look
the ceremony up, validate the peer, append the request (with no duplicate
check), and if the ceremony became ready respond `Success` with the parties
and delete it.  Result: the new ceremonies map, plus `.ok (some parties)`
when the ceremony completed, `.ok none` while still gathering. -/
def onJoinParty (ceremonies : List (String × Ceremony)) (jp : JoinParty) :
    List (String × Ceremony) × Except JoinErr (Option (List String)) :=
  match ceremonies.lookup jp.msgID with
  | none => (ceremonies, .error .leaderNotReady)
  | some c =>
    if c.ValidPeer jp.peer = false then (ceremonies, .error .unknownPeer)
    else
      let c2 := { c with joinPartyRequests := c.joinPartyRequests ++ [jp.peer] }
      if c2.IsReady = false then (upsertCeremony ceremonies jp.msgID c2, .ok none)
      else (ceremonies.filter (fun e => !(e.1 == jp.msgID)), .ok (some c2.GetParties))

/-- `onJoinParty` from `part_004` (lines 161-198): identical except that a
peer that is already recorded is rejected with `errUnknownPeer` before being
appended. -/
def onJoinParty004 (ceremonies : List (String × Ceremony)) (jp : JoinParty) :
    List (String × Ceremony) × Except JoinErr (Option (List String)) :=
  match ceremonies.lookup jp.msgID with
  | none => (ceremonies, .error .leaderNotReady)
  | some c =>
    if c.ValidPeer jp.peer = false then (ceremonies, .error .unknownPeer)
    else if c.IsPartyExist jp.peer then (ceremonies, .error .unknownPeer)
    else
      let c2 := { c with joinPartyRequests := c.joinPartyRequests ++ [jp.peer] }
      if c2.IsReady = false then (upsertCeremony ceremonies jp.msgID c2, .ok none)
      else (ceremonies.filter (fun e => !(e.1 == jp.msgID)), .ok (some c2.GetParties))

/-! # Theorems -/

/-! ## Wire codec -/

/-- Unfolding of `ReadStreamWithBuffer` on a stream with at least four bytes. -/
theorem readStream_cons (b0 b1 b2 b3 : ℕ) (rest : List ℕ) :
    ReadStreamWithBuffer (b0 :: b1 :: b2 :: b3 :: rest) =
      if MaxPayload < decodeLE4 b0 b1 b2 b3 then .error .exceedMax
      else if (rest.take (decodeLE4 b0 b1 b2 b3)).length = decodeLE4 b0 b1 b2 b3 then
        .ok (rest.take (decodeLE4 b0 b1 b2 b3))
      else .error .shortRead := rfl

/-- C9: for every payload shorter than `2^32` bytes, `WriteStreamWithBuffer`
emits exactly the 4-byte little-endian encoding of the length followed by the
payload, `ReadStreamWithBuffer` recovers exactly the payload from that
stream, and any stream whose decoded length field exceeds `MaxPayload` is
rejected with the over-length error. -/
theorem write_read_roundtrip (p : List ℕ) (h : p.length < 4294967296) :
    WriteStreamWithBuffer p = encodeLE4 p.length ++ p ∧
    ReadStreamWithBuffer (WriteStreamWithBuffer p) = .ok p ∧
    ∀ b0 b1 b2 b3 rest, MaxPayload < decodeLE4 b0 b1 b2 b3 →
      ReadStreamWithBuffer (b0 :: b1 :: b2 :: b3 :: rest) = .error .exceedMax := by
  have hmod : p.length % 4294967296 = p.length := Nat.mod_eq_of_lt h
  have hwrite : WriteStreamWithBuffer p = encodeLE4 p.length ++ p := by
    unfold WriteStreamWithBuffer
    rw [hmod]
  refine ⟨hwrite, ?_, ?_⟩
  · have hdec : decodeLE4 (p.length % 256) (p.length / 256 % 256) (p.length / 65536 % 256)
        (p.length / 16777216 % 256) = p.length := by
      unfold decodeLE4
      omega
    have hcons : encodeLE4 p.length ++ p =
        p.length % 256 :: p.length / 256 % 256 :: p.length / 65536 % 256 ::
          p.length / 16777216 % 256 :: p := rfl
    rw [hwrite, hcons, readStream_cons, hdec,
      if_neg (by unfold MaxPayload; omega), List.take_length, if_pos rfl]
  · intro b0 b1 b2 b3 rest hgt
    rw [readStream_cons, if_pos hgt]

/-- Witness for C9 at a concrete payload and a concrete over-length header. -/
theorem write_read_roundtrip_witness :
    ReadStreamWithBuffer (WriteStreamWithBuffer [7, 8]) = .ok [7, 8] ∧
    ReadStreamWithBuffer (4294967296 :: 0 :: 0 :: 0 :: []) = .error .exceedMax :=
  ⟨(write_read_roundtrip [7, 8] (by decide)).2.1,
   (write_read_roundtrip [7, 8] (by decide)).2.2 4294967296 0 0 0 [] (by decide)⟩

/-- C10: the decoded length of any genuine 4-byte header is at most
`MaxPayload = 2^32 - 1`, so for a stream of actual bytes the over-length
rejection branch of `ReadStreamWithBuffer` is unreachable. -/
theorem readStream_exceedMax_unreachable (stream : List ℕ)
    (hbytes : ∀ b ∈ stream, b < 256) :
    (∀ b0 b1 b2 b3 : ℕ, b0 < 256 → b1 < 256 → b2 < 256 → b3 < 256 →
      decodeLE4 b0 b1 b2 b3 ≤ MaxPayload) ∧
    ReadStreamWithBuffer stream ≠ .error .exceedMax := by
  constructor
  · intro b0 b1 b2 b3 h0 h1 h2 h3
    unfold decodeLE4 MaxPayload
    omega
  · match stream, hbytes with
    | [], _ => simp [ReadStreamWithBuffer]
    | [a], _ => simp [ReadStreamWithBuffer]
    | [a, b], _ => simp [ReadStreamWithBuffer]
    | [a, b, c], _ => simp [ReadStreamWithBuffer]
    | a :: b :: c :: d :: rest, hb =>
      rw [readStream_cons]
      have hle : decodeLE4 a b c d ≤ MaxPayload := by
        have ha : a < 256 := hb a (by simp)
        have hbb : b < 256 := hb b (by simp)
        have hc : c < 256 := hb c (by simp)
        have hd : d < 256 := hb d (by simp)
        unfold decodeLE4 MaxPayload
        omega
      rw [if_neg (by omega)]
      split <;> simp

/-- Witness for C10 at a concrete byte stream. -/
theorem readStream_exceedMax_unreachable_witness :
    ReadStreamWithBuffer [0, 0, 0, 0] ≠ .error .exceedMax :=
  (readStream_exceedMax_unreachable [0, 0, 0, 0] (by decide)).2

/-! ## Threshold -/

/-- Pin down `Int.log 2` from an enclosing binade. -/
theorem log2_eq_of (q : ℚ) (t : ℤ) (hq : 0 < q) (h1 : (2 : ℚ) ^ t ≤ q)
    (h2 : q < (2 : ℚ) ^ (t + 1)) : Int.log 2 q = t := by
  have ha : t ≤ Int.log 2 q := by
    rw [← Int.zpow_le_iff_le_log (by norm_num) hq]
    simpa using h1
  have hb : Int.log 2 q < t + 1 := by
    rw [← Int.lt_zpow_iff_log_lt (by norm_num) hq]
    simpa using h2
  omega

/-- Unfolding of `rne` once the binade of the argument is known. -/
theorem rne_eq (q : ℚ) (t : ℤ) (hq : 0 < q) (h1 : (2 : ℚ) ^ t ≤ q)
    (h2 : q < (2 : ℚ) ^ (t + 1)) :
    rne q = (2 : ℚ) ^ (t - 52) * roundHalfEven (q / (2 : ℚ) ^ (t - 52)) := by
  unfold rne
  rw [if_neg (not_le.mpr hq), log2_eq_of q t hq h1 h2]

/-- Integers are fixed by half-even rounding. -/
theorem roundHalfEven_intCast (k : ℤ) : roundHalfEven ((k : ℚ)) = k := by
  unfold roundHalfEven
  norm_num

/-- Half-even rounding moves a value by at most one half. -/
theorem roundHalfEven_sub_le (x : ℚ) : |(roundHalfEven x : ℚ) - x| ≤ 1 / 2 := by
  have hf1 := Int.floor_le x
  have hf2 := Int.lt_floor_add_one x
  unfold roundHalfEven
  rcases lt_trichotomy (x - ⌊x⌋) (1 / 2) with h | h | h
  · rw [if_pos h, abs_le]
    constructor <;> linarith
  · rw [if_neg (by linarith), if_neg (by linarith)]
    split <;> (push_cast; rw [abs_le]; constructor <;> linarith)
  · rw [if_neg (by linarith), if_pos h]
    push_cast
    rw [abs_le]
    constructor <;> linarith

/-- In the binade with exponent at most 51 the rounding error of `rne` is at
most one quarter. -/
theorem rne_sub_le (q : ℚ) (t : ℤ) (hq : 0 < q) (h1 : (2 : ℚ) ^ t ≤ q)
    (h2 : q < (2 : ℚ) ^ (t + 1)) (ht : t ≤ 51) : |rne q - q| ≤ 1 / 4 := by
  rw [rne_eq q t hq h1 h2]
  have hp : (0 : ℚ) < 2 ^ (t - 52) := zpow_pos (by norm_num) _
  have hcancel : (2 : ℚ) ^ (t - 52) * (q / 2 ^ (t - 52)) = q := by
    field_simp
  have key : (2 : ℚ) ^ (t - 52) * roundHalfEven (q / 2 ^ (t - 52)) - q =
      2 ^ (t - 52) * ((roundHalfEven (q / 2 ^ (t - 52)) : ℚ) - q / 2 ^ (t - 52)) := by
    rw [mul_sub, hcancel]
  rw [key, abs_mul, abs_of_pos hp]
  have hb := roundHalfEven_sub_le (q / 2 ^ (t - 52))
  have hle : (2 : ℚ) ^ (t - 52) ≤ 2 ^ (-1 : ℤ) :=
    zpow_le_zpow_right₀ (by norm_num) (by omega)
  have hval : (2 : ℚ) ^ (-1 : ℤ) = 1 / 2 := by norm_num
  calc (2 : ℚ) ^ (t - 52) * |(roundHalfEven (q / 2 ^ (t - 52)) : ℚ) - q / 2 ^ (t - 52)|
      ≤ 2 ^ (t - 52) * (1 / 2) := mul_le_mul_of_nonneg_left hb hp.le
    _ ≤ (1 / 2 : ℚ) * (1 / 2) := by
        apply mul_le_mul_of_nonneg_right _ (by norm_num)
        rw [← hval]
        exact hle
    _ = 1 / 4 := by norm_num

/-- Nonnegative integers below `2^53` are binary64-representable and fixed
by `rne`. -/
theorem rne_intCast (m : ℤ) (h0 : 0 ≤ m) (h53 : m < 2 ^ 53) : rne ((m : ℚ)) = m := by
  rcases eq_or_lt_of_le h0 with h | hpos
  · rw [← h]
    unfold rne
    norm_num
  · have hq : (0 : ℚ) < m := by exact_mod_cast hpos
    have h1 : (2 : ℚ) ^ Int.log 2 ((m : ℚ)) ≤ m := by
      simpa using Int.zpow_log_le_self (b := 2) (by norm_num) hq
    have h2 : (m : ℚ) < 2 ^ (Int.log 2 ((m : ℚ)) + 1) := by
      simpa using Int.lt_zpow_succ_log_self (b := 2) (by norm_num) ((m : ℚ))
    set t := Int.log 2 ((m : ℚ)) with htdef
    have ht52 : t ≤ 52 := by
      by_contra hcon
      push_neg at hcon
      have ha : (2 : ℚ) ^ ((53 : ℕ) : ℤ) ≤ 2 ^ t :=
        zpow_le_zpow_right₀ (by norm_num) (by omega)
      have hb : ((2 ^ 53 : ℤ) : ℚ) ≤ (m : ℚ) := by
        calc ((2 ^ 53 : ℤ) : ℚ) = (2 : ℚ) ^ ((53 : ℕ) : ℤ) := by
              rw [zpow_natCast]
              push_cast
              norm_num
          _ ≤ 2 ^ t := ha
          _ ≤ m := h1
      have : (2 ^ 53 : ℤ) ≤ m := by exact_mod_cast hb
      omega
    rw [rne_eq (m : ℚ) t hq h1 h2]
    have hs : ((52 - t).toNat : ℤ) = 52 - t := Int.toNat_of_nonneg (by omega)
    have hpow : (2 : ℚ) ^ (t - 52) = ((2 : ℚ) ^ (52 - t).toNat)⁻¹ := by
      rw [← zpow_natCast (2 : ℚ) (52 - t).toNat, ← zpow_neg]
      congr 1
      omega
    have hdiv : (m : ℚ) / 2 ^ (t - 52) = ((m * 2 ^ (52 - t).toNat : ℤ) : ℚ) := by
      rw [hpow, div_eq_mul_inv, inv_inv]
      push_cast
      ring
    rw [hdiv, roundHalfEven_intCast, hpow]
    push_cast
    have hne : ((2 : ℚ) ^ (52 - t).toNat) ≠ 0 := by positivity
    field_simp

/-- In the range where the float64 pipeline is exact, `GetThreshold`
computes the exact ceiling: the result `t` satisfies `3t < 2n ≤ 3(t+1)`. -/
theorem getThreshold_small (n : ℤ) (h0 : 0 ≤ n) (hlt : n < 2 ^ 51) :
    ∃ t, GetThreshold n = .ok t ∧ 3 * t < 2 * n ∧ 2 * n ≤ 3 * t + 3 := by
  have hr1 : rne ((n : ℚ)) = n := rne_intCast n h0 (by omega)
  have hr2 : rne ((n : ℚ) * 2) = (n : ℚ) * 2 := by
    have h := rne_intCast (2 * n) (by omega) (by omega)
    have hcast : ((2 * n : ℤ) : ℚ) = (n : ℚ) * 2 := by
      push_cast
      ring
    rw [hcast] at h
    exact h
  unfold GetThreshold
  rw [if_neg (not_lt.mpr h0), hr1, hr2]
  by_cases hdvd : (3 : ℤ) ∣ 2 * n
  · obtain ⟨c, hc⟩ := hdvd
    have hcq : (n : ℚ) * 2 / 3 = ((c : ℤ) : ℚ) := by
      have hcast : (2 : ℚ) * n = 3 * (c : ℚ) := by exact_mod_cast hc
      field_simp
      linarith
    rw [hcq, rne_intCast c (by omega) (by omega), Int.ceil_intCast]
    exact ⟨c - 1, rfl, by omega, by omega⟩
  · set k := 2 * n / 3 with hkdef
    have hb1 : 3 * k + 1 ≤ 2 * n := by omega
    have hb2 : 2 * n ≤ 3 * k + 2 := by omega
    have hklo : (k : ℚ) + 1 / 3 ≤ (n : ℚ) * 2 / 3 := by
      have hcast : ((3 * k + 1 : ℤ) : ℚ) ≤ ((2 * n : ℤ) : ℚ) := by exact_mod_cast hb1
      push_cast at hcast
      linarith
    have hkhi : (n : ℚ) * 2 / 3 ≤ (k : ℚ) + 2 / 3 := by
      have hcast : ((2 * n : ℤ) : ℚ) ≤ ((3 * k + 2 : ℤ) : ℚ) := by exact_mod_cast hb2
      push_cast at hcast
      linarith
    have hk0 : (0 : ℚ) ≤ (k : ℚ) := by
      have : (0 : ℤ) ≤ k := by omega
      exact_mod_cast this
    have hq0 : (0 : ℚ) < (n : ℚ) * 2 / 3 := by linarith
    have h1 : (2 : ℚ) ^ Int.log 2 ((n : ℚ) * 2 / 3) ≤ (n : ℚ) * 2 / 3 := by
      simpa using Int.zpow_log_le_self (b := 2) (by norm_num) hq0
    have h2 : (n : ℚ) * 2 / 3 < 2 ^ (Int.log 2 ((n : ℚ) * 2 / 3) + 1) := by
      simpa using Int.lt_zpow_succ_log_self (b := 2) (by norm_num) ((n : ℚ) * 2 / 3)
    set t := Int.log 2 ((n : ℚ) * 2 / 3) with htdef
    have ht51 : t ≤ 51 := by
      by_contra hcon
      push_neg at hcon
      have ha : (2 : ℚ) ^ ((52 : ℕ) : ℤ) ≤ 2 ^ t :=
        zpow_le_zpow_right₀ (by norm_num) (by omega)
      have hklt : k + 1 ≤ 2 ^ 52 := by omega
      have hqlt : (n : ℚ) * 2 / 3 < ((2 ^ 52 : ℤ) : ℚ) := by
        have hcast : ((k + 1 : ℤ) : ℚ) ≤ ((2 ^ 52 : ℤ) : ℚ) := by exact_mod_cast hklt
        push_cast at hcast
        linarith
      have hge : ((2 ^ 52 : ℤ) : ℚ) ≤ (n : ℚ) * 2 / 3 := by
        calc ((2 ^ 52 : ℤ) : ℚ) = (2 : ℚ) ^ ((52 : ℕ) : ℤ) := by
              rw [zpow_natCast]
              push_cast
              norm_num
          _ ≤ 2 ^ t := ha
          _ ≤ (n : ℚ) * 2 / 3 := h1
      linarith
    have herr := rne_sub_le ((n : ℚ) * 2 / 3) t hq0 h1 h2 ht51
    rw [abs_le] at herr
    have hceil : ⌈rne ((n : ℚ) * 2 / 3)⌉ = k + 1 := by
      rw [Int.ceil_eq_iff]
      constructor
      · push_cast
        linarith
      · push_cast
        linarith
    refine ⟨k, ?_, by omega, by omega⟩
    rw [hceil]
    norm_num

/-- C5 counterexample: the claim asserts the exact ceiling for every
`n ≥ 0`, but at `n = 6755399441055746` the float64 quotient
`2n/3 = 4503599627370497.33…` rounds down to `4503599627370497.0`
(the unit in the last place is 1 there), so the program returns
`4503599627370496` while `ceil(2n/3) − 1 = 4503599627370497`: the returned
value violates the claimed characterization `3t < 2n ≤ 3t + 3`. -/
theorem getThreshold_float_counterexample :
    GetThreshold 6755399441055746 = .ok 4503599627370496 ∧
    ¬(3 * 4503599627370496 < 2 * 6755399441055746 ∧
      2 * 6755399441055746 ≤ 3 * 4503599627370496 + 3) := by
  constructor
  · have s1 : rne ((6755399441055746 : ℚ)) = (6755399441055746 : ℚ) := by
      have h := rne_intCast 6755399441055746 (by norm_num) (by norm_num)
      push_cast at h
      exact h
    have hmul : (6755399441055746 : ℚ) * 2 = (13510798882111492 : ℚ) := by norm_num
    have s2 : rne ((13510798882111492 : ℚ)) = (13510798882111492 : ℚ) := by
      have hb1 : (2 : ℚ) ^ ((53 : ℕ) : ℤ) ≤ (13510798882111492 : ℚ) := by
        rw [zpow_natCast]
        norm_num
      have hb2 : (13510798882111492 : ℚ) < 2 ^ (((53 : ℕ) : ℤ) + 1) := by
        rw [show (((53 : ℕ) : ℤ) + 1) = ((54 : ℕ) : ℤ) by norm_num, zpow_natCast]
        norm_num
      rw [rne_eq (13510798882111492 : ℚ) ((53 : ℕ) : ℤ) (by norm_num) hb1 hb2]
      rw [show (((53 : ℕ) : ℤ) - 52) = (1 : ℤ) by norm_num]
      rw [show ((2 : ℚ) ^ (1 : ℤ)) = 2 by norm_num]
      rw [show (13510798882111492 : ℚ) / 2 = ((6755399441055746 : ℤ) : ℚ) by
        push_cast
        norm_num]
      rw [roundHalfEven_intCast]
      push_cast
      norm_num
    have s3 : rne ((13510798882111492 : ℚ) / 3) = (4503599627370497 : ℚ) := by
      have hb1 : (2 : ℚ) ^ ((52 : ℕ) : ℤ) ≤ (13510798882111492 : ℚ) / 3 := by
        rw [zpow_natCast]
        norm_num
      have hb2 : (13510798882111492 : ℚ) / 3 < 2 ^ (((52 : ℕ) : ℤ) + 1) := by
        rw [show (((52 : ℕ) : ℤ) + 1) = ((53 : ℕ) : ℤ) by norm_num, zpow_natCast]
        norm_num
      rw [rne_eq ((13510798882111492 : ℚ) / 3) ((52 : ℕ) : ℤ) (by norm_num) hb1 hb2]
      rw [show (((52 : ℕ) : ℤ) - 52) = (0 : ℤ) by norm_num, zpow_zero, one_mul, div_one]
      have hfl : ⌊(13510798882111492 : ℚ) / 3⌋ = 4503599627370497 := by
        rw [Int.floor_eq_iff]
        constructor
        · push_cast
          norm_num
        · push_cast
          norm_num
      unfold roundHalfEven
      rw [hfl]
      rw [if_pos (by push_cast; norm_num)]
      push_cast
      norm_num
    unfold GetThreshold
    rw [if_neg (by norm_num)]
    push_cast
    rw [s1, hmul, s2, s3]
    have hc : ⌈(4503599627370497 : ℚ)⌉ = 4503599627370497 := by
      rw [Int.ceil_eq_iff]
      constructor <;> norm_num
    rw [hc]
    norm_num
  · intro h
    omega

/-- C5 (amended): for every integer `0 ≤ n < 2^51` — the range in which the
float64 pipeline of `GetThreshold` is exact — the function succeeds and
returns exactly `ceil(2n/3) - 1`, characterized by `3t < 2n ≤ 3(t+1)`; for
every `n < 0` it returns an error.  (Beyond that range the float64 division
can round below the exact quotient and lose the ceiling, as at
`n = 6755399441055746`.) -/
theorem getThreshold_spec (n : ℤ) :
    (0 ≤ n → n < 2 ^ 51 →
      ∃ t, GetThreshold n = .ok t ∧ 3 * t < 2 * n ∧ 2 * n ≤ 3 * t + 3) ∧
    (n < 0 → GetThreshold n = .error ()) := by
  constructor
  · intro h0 hlt
    exact getThreshold_small n h0 hlt
  · intro hn
    unfold GetThreshold
    rw [if_pos hn]

/-- Witness for the amended C5 at `n = 4` (threshold 2) and `n = -1`
(error). -/
theorem getThreshold_spec_witness :
    (∃ t, GetThreshold 4 = .ok t ∧ 3 * t < 2 * 4 ∧ 2 * 4 ≤ 3 * t + 3) ∧
    GetThreshold (-1) = .error () :=
  ⟨(getThreshold_spec 4).1 (by norm_num) (by norm_num),
   (getThreshold_spec (-1)).2 (by norm_num)⟩

/-! ## Blame de-duplication -/

/-- C8: evaluation at the input of `common/blame_test.go` (`TestBlame`):
all four nodes carry a nil `BlameSignature`, so the `common/blame.go`
version, which compares signatures only, skips the two new nodes (the test
expects four entries), while the `blame`-package version, which compares the
(Pubkey, BlameSignature) pair via `Node.Equal`, appends them. -/
theorem addBlameNodes_dedup_bug :
    commonAddBlameNodes [⟨"1", [], []⟩, ⟨"2", [], []⟩] [⟨"3", [], []⟩, ⟨"4", [], []⟩] =
      [⟨"1", [], []⟩, ⟨"2", [], []⟩] ∧
    blameAddBlameNodes [⟨"1", [], []⟩, ⟨"2", [], []⟩] [⟨"3", [], []⟩, ⟨"4", [], []⟩] =
      [⟨"1", [], []⟩, ⟨"2", [], []⟩, ⟨"3", [], []⟩, ⟨"4", [], []⟩] :=
  ⟨rfl, rfl⟩

/-! ## Join-party idempotence -/

/-- C3: evaluation of two join requests from the same peer `A` against a
ceremony with allowed set `{A, B}` and threshold 1.  The
`src/p2p/party_coordinator.go` version appends the duplicate, growing the
recorded participant list from `[A]` to `[A, A]`; the `part_004` version
rejects the duplicate with `errUnknownPeer` and leaves the ceremonies map
unchanged. -/
theorem onJoinParty_duplicate_grows :
    ((onJoinParty [("m1", ⟨"m1", 1, [], ["A", "B"]⟩)] ⟨"m1", "A"⟩).1.lookup "m1").map
        Ceremony.joinPartyRequests = some ["A"] ∧
    (((onJoinParty (onJoinParty [("m1", ⟨"m1", 1, [], ["A", "B"]⟩)] ⟨"m1", "A"⟩).1
        ⟨"m1", "A"⟩).1.lookup "m1").map Ceremony.joinPartyRequests) = some ["A", "A"] ∧
    (onJoinParty004 (onJoinParty004 [("m1", ⟨"m1", 1, [], ["A", "B"]⟩)] ⟨"m1", "A"⟩).1
        ⟨"m1", "A"⟩).2 = .error .unknownPeer ∧
    (onJoinParty004 (onJoinParty004 [("m1", ⟨"m1", 1, [], ["A", "B"]⟩)] ⟨"m1", "A"⟩).1
        ⟨"m1", "A"⟩).1 =
      (onJoinParty004 [("m1", ⟨"m1", 1, [], ["A", "B"]⟩)] ⟨"m1", "A"⟩).1 :=
  ⟨rfl, rfl, rfl, rfl⟩

/-! ## Confirm engine -/

/-- C1: the confirm engine performs no hash comparison.  With participants
`{A, B, C}` (local party `A`), after the broadcast wire message from `B` is
cached with stored hash `hashFn [1,2]`, a `VerMessage` from `C` carrying any
different hash `hbad` completes the confirm count; the engine nevertheless
delivers the stored message to the local party and reports no error, instead
of raising a hash-check failure. -/
theorem processVerMsg_no_hash_check (hashFn : List ℕ → String) (hbad : String)
    (hne : hbad ≠ hashFn [1, 2]) :
    tryGetLocalCacheItem
        (processEvents hashFn ⟨["A", "B", "C"], "A", [], [], []⟩
          [.tss ⟨"B", true, "r1", [1, 2]⟩]).1 ("r1", "B") =
      some ⟨some ⟨"B", true, "r1", [1, 2]⟩, hashFn [1, 2], [("A", hashFn [1, 2])]⟩ ∧
    (processEvents hashFn ⟨["A", "B", "C"], "A", [], [], []⟩
        [.tss ⟨"B", true, "r1", [1, 2]⟩, .ver ⟨"C", ("r1", "B"), hbad⟩]).1.delivered =
      [⟨"B", true, "r1", [1, 2]⟩] ∧
    (processEvents hashFn ⟨["A", "B", "C"], "A", [], [], []⟩
        [.tss ⟨"B", true, "r1", [1, 2]⟩, .ver ⟨"C", ("r1", "B"), hbad⟩]).2 =
      [none, none] :=
  ⟨rfl, rfl, rfl⟩

/-- Witness for C1 at a concrete hash function and a concretely different
reported hash. -/
theorem processVerMsg_no_hash_check_witness :
    tryGetLocalCacheItem
        (processEvents (fun _ => "h0") ⟨["A", "B", "C"], "A", [], [], []⟩
          [.tss ⟨"B", true, "r1", [1, 2]⟩]).1 ("r1", "B") =
      some ⟨some ⟨"B", true, "r1", [1, 2]⟩, (fun _ => "h0") [1, 2],
            [("A", (fun _ => "h0") [1, 2])]⟩ ∧
    (processEvents (fun _ => "h0") ⟨["A", "B", "C"], "A", [], [], []⟩
        [.tss ⟨"B", true, "r1", [1, 2]⟩, .ver ⟨"C", ("r1", "B"), "h1"⟩]).1.delivered =
      [⟨"B", true, "r1", [1, 2]⟩] ∧
    (processEvents (fun _ => "h0") ⟨["A", "B", "C"], "A", [], [], []⟩
        [.tss ⟨"B", true, "r1", [1, 2]⟩, .ver ⟨"C", ("r1", "B"), "h1"⟩]).2 =
      [none, none] :=
  processVerMsg_no_hash_check (fun _ => "h0") "h1" (by decide)

/-- C2: delivery is not at-most-once per cache key.  With participants
`{A, B, C}` (local party `A`), the sequence (confirmation from `C`, broadcast
wire message from `B`, replayed confirmation from `C`) makes the engine hand
the same broadcast payload of key `(r1, B)` to the local crypto party twice:
`processTSSMsg` delivers at confirm count 2 without evicting the item, and
the replayed `VerMessage` then re-triggers the delivery in `processVerMsg`.
No call reports an error. -/
theorem confirm_engine_double_delivery (hashFn : List ℕ → String) :
    (processEvents hashFn ⟨["A", "B", "C"], "A", [], [], []⟩
        [.ver ⟨"C", ("r1", "B"), hashFn [1, 2]⟩,
         .tss ⟨"B", true, "r1", [1, 2]⟩,
         .ver ⟨"C", ("r1", "B"), hashFn [1, 2]⟩]).1.delivered =
      [⟨"B", true, "r1", [1, 2]⟩, ⟨"B", true, "r1", [1, 2]⟩] ∧
    (processEvents hashFn ⟨["A", "B", "C"], "A", [], [], []⟩
        [.ver ⟨"C", ("r1", "B"), hashFn [1, 2]⟩,
         .tss ⟨"B", true, "r1", [1, 2]⟩,
         .ver ⟨"C", ("r1", "B"), hashFn [1, 2]⟩]).2 = [none, none, none] := by
  constructor
  · rfl
  · rfl

/-! ## Signature serialization -/

/-- A value below `256 ^ k` needs at most `k` bytes. -/
theorem toBytesBE_length_le (k : ℕ) : ∀ n : ℕ, n < 256 ^ k → (toBytesBE n).length ≤ k := by
  induction k with
  | zero =>
    intro n hn
    have hn0 : n = 0 := by omega
    subst hn0
    rw [toBytesBE]
    simp
  | succ k ih =>
    intro n hn
    by_cases h0 : n = 0
    · subst h0
      rw [toBytesBE]
      simp
    · rw [toBytesBE, dif_neg h0]
      have hdiv : n / 256 < 256 ^ k := by
        rw [Nat.div_lt_iff_lt_mul (by norm_num)]
        calc n < 256 ^ (k + 1) := hn
        _ = 256 ^ k * 256 := by ring
      have := ih (n / 256) hdiv
      simp only [List.length_append, List.length_cons, List.length_nil]
      omega

/-- A value of at least `256 ^ k` needs more than `k` bytes. -/
theorem toBytesBE_length_gt (k : ℕ) : ∀ n : ℕ, 256 ^ k ≤ n → k < (toBytesBE n).length := by
  induction k with
  | zero =>
    intro n hn
    have h1 : 1 ≤ n := by simpa using hn
    have h0 : n ≠ 0 := by omega
    rw [toBytesBE, dif_neg h0]
    simp
  | succ k ih =>
    intro n hn
    have hp : 0 < 256 ^ (k + 1) := by positivity
    have h0 : n ≠ 0 := by omega
    rw [toBytesBE, dif_neg h0]
    have hdiv : 256 ^ k ≤ n / 256 := by
      rw [Nat.le_div_iff_mul_le (by norm_num)]
      calc 256 ^ k * 256 = 256 ^ (k + 1) := by ring
      _ ≤ n := hn
    have := ih (n / 256) hdiv
    simp only [List.length_append, List.length_cons, List.length_nil]
    omega

/-- C6 counterexample: the claim quantifies over every `SignatureData` whose
`S` satisfies `0 < S < N` and puts no bound on `R`; at `R = 2^256`
(a 33-byte big-endian value) the copy into `sigBytes[32-len(rBytes):32]`
panics instead of returning 64 bytes, modelled as `none`. -/
theorem getSignatureBytes_huge_R :
    (0 < 1 ∧ 1 < secpN) ∧ getSignatureBytes (2 ^ 256) 1 = none := by
  refine ⟨⟨one_pos, by norm_num [secpN]⟩, ?_⟩
  have hgt : 32 < (toBytesBE (2 ^ 256)).length :=
    toBytesBE_length_gt 32 (2 ^ 256) (by norm_num)
  have hnot : ¬((toBytesBE (2 ^ 256)).length ≤ 32 ∧
      (toBytesBE (if secpN / 2 < 1 then secpN - 1 else 1)).length ≤ 32) :=
    fun hcon => absurd hcon.1 (by omega)
  simp only [getSignatureBytes]
  rw [if_neg hnot]

/-- C6 (amended with `R < 2^256`): for `0 < S < N` and an `R` value that fits
in 32 bytes, `getSignatureBytes` returns exactly 64 bytes laid out as `R`
then `S`, each left-zero-padded to 32 bytes, where the serialized `S` equals
`min(S, N - S)` and therefore satisfies `2S ≤ N`. -/
theorem getSignatureBytes_spec (R S : ℕ) (hR : R < 2 ^ 256) (hS0 : 0 < S)
    (hSN : S < secpN) :
    ∃ out, getSignatureBytes R S = some out ∧
      out = pad32 (toBytesBE R) ++ pad32 (toBytesBE (min S (secpN - S))) ∧
      out.length = 64 ∧
      2 * min S (secpN - S) ≤ secpN := by
  have hle : S ≤ secpN := le_of_lt hSN
  have hSfin : (if secpN / 2 < S then secpN - S else S) = min S (secpN - S) := by
    by_cases h : secpN / 2 < S
    · rw [if_pos h, min_eq_right (by omega : secpN - S ≤ S)]
    · rw [if_neg h, min_eq_left (by omega : S ≤ secpN - S)]
  have hminl := min_le_left S (secpN - S)
  have hminr := min_le_right S (secpN - S)
  have hRlen : (toBytesBE R).length ≤ 32 := toBytesBE_length_le 32 R (by omega)
  have hsecp : secpN < 2 ^ 256 := by norm_num [secpN]
  have hSlen : (toBytesBE (min S (secpN - S))).length ≤ 32 :=
    toBytesBE_length_le 32 _ (by omega)
  refine ⟨pad32 (toBytesBE R) ++ pad32 (toBytesBE (min S (secpN - S))), ?_, rfl, ?_, ?_⟩
  · simp only [getSignatureBytes]
    rw [hSfin, if_pos ⟨hRlen, hSlen⟩]
    unfold pad32
    simp [List.append_assoc]
  · unfold pad32
    simp only [List.length_append, List.length_replicate]
    omega
  · omega

/-- Witness for the amended C6 at `R = S = 1`. -/
theorem getSignatureBytes_spec_witness :
    ∃ out, getSignatureBytes 1 1 = some out ∧
      out = pad32 (toBytesBE 1) ++ pad32 (toBytesBE (min 1 (secpN - 1))) ∧
      out.length = 64 ∧
      2 * min 1 (secpN - 1) ≤ secpN :=
  getSignatureBytes_spec 1 1 (by norm_num) (by norm_num) (by norm_num [secpN])

/-! ## Notifier -/

/-- `verifySignature` returns `ok true` exactly when the pool key decodes,
the batch length matches the requested messages, and every requested message
finds a verifying entry in the signature map. -/
theorem verifySignature_ok_true (decodeOk : Bool) (verify : List ℕ → SignatureData → Bool)
    (messages : List (List ℕ)) (sigs : List SignatureData) :
    verifySignature decodeOk verify messages sigs = .ok true ↔
      (decodeOk = true ∧ sigs.length = messages.length ∧
        messages.all (fun m => entryVerifies verify sigs m) = true) := by
  unfold verifySignature
  cases decodeOk with
  | false => simp
  | true =>
    by_cases hl : sigs.length = messages.length
    · rw [if_neg (by simp), if_pos hl]
      simp [hl]
    · rw [if_neg (by simp), if_neg hl]
      simp [hl]

/-- C7 counterexample: after a valid batch is accepted, the response channel
is not closed (`notifier.go` never closes it), and a later valid submission
blocks on the full capacity-1 channel instead of finding it closed. -/
theorem processSignature_channel_not_closed :
    ProcessSignature true (fun _ _ => true) ⟨[[1]], none, false⟩ [⟨[1], [], []⟩] =
      .done (.ok true) ⟨[[1]], some [⟨[1], [], []⟩], false⟩ ∧
    ¬((⟨[[1]], some [⟨[1], [], []⟩], false⟩ : Notifier).respClosed = true) ∧
    ProcessSignature true (fun _ _ => true) ⟨[[1]], some [⟨[1], [], []⟩], false⟩ [⟨[1], [], []⟩] =
      .blocked :=
  ⟨rfl, by simp, rfl⟩

/-- C7 (amended): with an empty response buffer, `ProcessSignature` places
the batch on the capacity-1 channel and returns `true` exactly when the pool
key decodes, the batch length equals the number of requested messages, and
every requested message has a verifying entry; in every other case it
returns without touching the state; once the buffer is full a later valid
submission blocks (the channel is never closed); and no call ever changes
the closed flag of the channel. -/
theorem ProcessSignature_spec (decodeOk : Bool) (verify : List ℕ → SignatureData → Bool)
    (n : Notifier) (data : List SignatureData) (hbuf : n.respBuf = none) :
    (ProcessSignature decodeOk verify n data =
        .done (.ok true) { n with respBuf := some data } ↔
      (decodeOk = true ∧ data.length = n.messages.length ∧
        n.messages.all (fun m => entryVerifies verify data m) = true)) ∧
    (¬(decodeOk = true ∧ data.length = n.messages.length ∧
        n.messages.all (fun m => entryVerifies verify data m) = true) →
      ∃ r, ProcessSignature decodeOk verify n data = .done r n ∧ r ≠ .ok true) ∧
    (∀ b data2, (decodeOk = true ∧ data2.length = n.messages.length ∧
        n.messages.all (fun m => entryVerifies verify data2 m) = true) →
      ProcessSignature decodeOk verify { n with respBuf := some b } data2 = .blocked) ∧
    (∀ r st', ProcessSignature decodeOk verify n data = .done r st' →
      st'.respClosed = n.respClosed) := by
  refine ⟨?_, ?_, ?_, ?_⟩
  · rw [← verifySignature_ok_true decodeOk verify n.messages data]
    constructor
    · intro h
      cases hv : verifySignature decodeOk verify n.messages data with
      | error e =>
        unfold ProcessSignature at h
        rw [hv] at h
        exact absurd h (by simp)
      | ok bb =>
        cases bb with
        | false =>
          unfold ProcessSignature at h
          rw [hv] at h
          exact absurd h (by simp)
        | true => rfl
    · intro hv
      unfold ProcessSignature
      rw [hv, hbuf]
  · intro hncond
    have hv' : verifySignature decodeOk verify n.messages data ≠ .ok true := fun hc =>
      hncond ((verifySignature_ok_true decodeOk verify n.messages data).mp hc)
    cases hv : verifySignature decodeOk verify n.messages data with
    | error e =>
      refine ⟨.error e, ?_, by simp⟩
      unfold ProcessSignature
      rw [hv]
    | ok bb =>
      cases bb with
      | true => exact absurd hv hv'
      | false =>
        refine ⟨.ok false, ?_, by simp⟩
        unfold ProcessSignature
        rw [hv]
  · intro b data2 hcond
    have hv2 : verifySignature decodeOk verify n.messages data2 = .ok true :=
      (verifySignature_ok_true decodeOk verify n.messages data2).mpr hcond
    unfold ProcessSignature
    rw [show ({ n with respBuf := some b } : Notifier).messages = n.messages from rfl, hv2]
  · intro r st' h
    cases hv : verifySignature decodeOk verify n.messages data with
    | error e =>
      unfold ProcessSignature at h
      rw [hv] at h
      injection h with h1 h2
      rw [← h2]
    | ok bb =>
      cases bb with
      | false =>
        unfold ProcessSignature at h
        rw [hv] at h
        injection h with h1 h2
        rw [← h2]
      | true =>
        unfold ProcessSignature at h
        rw [hv, hbuf] at h
        injection h with h1 h2
        rw [← h2]

/-- Witness for the amended C7 at a concrete notifier and batch. -/
theorem ProcessSignature_spec_witness :
    ProcessSignature true (fun _ _ => true) ⟨[[2]], none, false⟩ [⟨[2], [], []⟩] =
        .done (.ok true) ⟨[[2]], some [⟨[2], [], []⟩], false⟩ ↔
      (true = true ∧ ([⟨[2], [], []⟩] : List SignatureData).length = ([[2]] : List (List ℕ)).length ∧
        ([[2]] : List (List ℕ)).all
          (fun m => entryVerifies (fun _ _ => true) [⟨[2], [], []⟩] m) = true) :=
  (ProcessSignature_spec true (fun _ _ => true) ⟨[[2]], none, false⟩ [⟨[2], [], []⟩] rfl).1

/-! ## Hash-check blame -/

/-- A peer is in the bucket of a hash exactly when it confirmed that hash. -/
theorem mem_bucketOf (l : List (String × String)) (h : String) (x : String) :
    x ∈ bucketOf l h ↔ (x, h) ∈ l := by
  simp only [bucketOf, List.mem_map, List.mem_filter, beq_iff_eq]
  constructor
  · rintro ⟨⟨a1, a2⟩, ⟨hmem, rfl⟩, rfl⟩
    exact hmem
  · intro hmem
    exact ⟨(x, h), ⟨hmem, rfl⟩, rfl⟩

/-- Membership in the concatenation of the buckets selected by a predicate on
the hash. -/
theorem mem_blameList (l : List (String × String)) (P : String → Bool) (x : String) :
    x ∈ ((hashKeysOf l).filter P).flatMap (fun k => bucketOf l k) ↔
      ∃ h, (x, h) ∈ l ∧ P h = true := by
  simp only [List.mem_flatMap, List.mem_filter, hashKeysOf, List.mem_dedup, List.mem_map,
    mem_bucketOf]
  constructor
  · rintro ⟨k, ⟨-, hP⟩, hx⟩
    exact ⟨k, hx, hP⟩
  · rintro ⟨h, hx, hP⟩
    exact ⟨h, ⟨⟨(x, h), hx, rfl⟩, hP⟩, hx⟩

/-- Unfolding of `findBlamePeers` once the threshold is known. -/
theorem findBlamePeers_ok (partyCount : ℕ) (item : LocalCacheItem) (owner : String) (t : ℤ)
    (ht : GetThreshold (partyCount : ℤ) = .ok t) :
    findBlamePeers partyCount item owner =
      if ((bucketOf item.confirmedList item.hash).length : ℤ) < t then
        .ok ((((hashKeysOf item.confirmedList).filter
            (fun k => !(k == item.hash) &&
              decide (((bucketOf item.confirmedList k).length : ℤ) < t))).flatMap
            (fun k => bucketOf item.confirmedList k)) ++ [owner])
      else
        .ok ((((hashKeysOf item.confirmedList).filter (fun k => !(k == item.hash))).flatMap
            (fun k => bucketOf item.confirmedList k)) ++ [owner]) := by
  unfold findBlamePeers
  rw [ht]

/-- C4: hash-check blame.  Under `ErrHashFromOwner` exactly the data owner's
peer ID is blamed.  Under `ErrHashFromPeer` the confirmers are partitioned by
reported hash; with `t = GetThreshold(|PartyIDMap|)`, if the bucket of the
local hash has size at least `t` then the blame list consists exactly of the
confirmers that reported a different hash plus the data owner, and if the
local bucket has size below `t` it consists exactly of the confirmers whose
differing hash lies in a bucket of size below `t` plus the data owner. -/
theorem getHashCheckBlamePeers_spec (pmap : List (String × String)) (ids : List String)
    (item : LocalCacheItem) (m : WireMessage) (owner : String) (t : ℤ)
    (hmsg : item.msg = some m) (howner : pmap.lookup m.fromId = some owner)
    (ht : GetThreshold (ids.length : ℤ) = .ok t) :
    getHashCheckBlamePeers pmap ids item .hashFromOwner = .ok [owner] ∧
    ∃ bl, getHashCheckBlamePeers pmap ids item .hashFromPeer = .ok bl ∧
      ((t ≤ ((bucketOf item.confirmedList item.hash).length : ℤ) →
        ∀ x, x ∈ bl ↔
          ((∃ h, (x, h) ∈ item.confirmedList ∧ h ≠ item.hash) ∨ x = owner)) ∧
       (((bucketOf item.confirmedList item.hash).length : ℤ) < t →
        ∀ x, x ∈ bl ↔
          ((∃ h, (x, h) ∈ item.confirmedList ∧ h ≠ item.hash ∧
              ((bucketOf item.confirmedList h).length : ℤ) < t) ∨ x = owner))) := by
  have h1 : getHashCheckBlamePeers pmap ids item .hashFromOwner = .ok [owner] := by
    simp only [getHashCheckBlamePeers, hmsg, howner]
  have h2 : getHashCheckBlamePeers pmap ids item .hashFromPeer =
      findBlamePeers ids.length item owner := by
    simp only [getHashCheckBlamePeers, hmsg, howner]
  refine ⟨h1, ?_⟩
  rcases lt_or_le ((bucketOf item.confirmedList item.hash).length : ℤ) t with hlt | hge
  · refine ⟨((hashKeysOf item.confirmedList).filter
        (fun k => !(k == item.hash) &&
          decide (((bucketOf item.confirmedList k).length : ℤ) < t))).flatMap
        (fun k => bucketOf item.confirmedList k) ++ [owner], ?_, ?_, ?_⟩
    · rw [h2, findBlamePeers_ok ids.length item owner t ht, if_pos hlt]
    · intro hmaj
      exact absurd hlt (not_lt.mpr hmaj)
    · intro _ x
      simp only [List.mem_append, List.mem_singleton, mem_blameList, Bool.and_eq_true,
        Bool.not_eq_eq_eq_not, Bool.not_true, beq_eq_false_iff_ne, decide_eq_true_eq]
  · refine ⟨((hashKeysOf item.confirmedList).filter
        (fun k => !(k == item.hash))).flatMap
        (fun k => bucketOf item.confirmedList k) ++ [owner], ?_, ?_, ?_⟩
    · rw [h2, findBlamePeers_ok ids.length item owner t ht, if_neg (not_lt.mpr hge)]
    · intro _ x
      simp only [List.mem_append, List.mem_singleton, mem_blameList,
        Bool.not_eq_eq_eq_not, Bool.not_true, beq_eq_false_iff_ne]
    · intro hmin
      exact absurd hmin (not_lt.mpr hge)

/-- `GetThreshold` at a concrete ceremony size (3 parties give threshold 1). -/
theorem getThreshold_three : GetThreshold ((3 : ℕ) : ℤ) = .ok 1 := by
  obtain ⟨t, ht, hlo, hhi⟩ := getThreshold_small 3 (by norm_num) (by norm_num)
  have htv : t = 1 := by omega
  rw [htv] at ht
  exact ht

/-- Witness for C4 at a concrete cache item with three parties. -/
theorem getHashCheckBlamePeers_spec_witness :
    getHashCheckBlamePeers [("1", "p1")] ["1", "2", "3"]
      ⟨some ⟨"1", true, "r", []⟩, "a", [("p2", "a"), ("p3", "b")]⟩ .hashFromOwner =
      .ok ["p1"] :=
  (getHashCheckBlamePeers_spec [("1", "p1")] ["1", "2", "3"]
      ⟨some ⟨"1", true, "r", []⟩, "a", [("p2", "a"), ("p3", "b")]⟩ ⟨"1", true, "r", []⟩ "p1" 1
      rfl rfl getThreshold_three).1

/-- Witness for C2 at a concrete hash function. -/
theorem confirm_engine_double_delivery_witness :
    (processEvents (fun _ => "h0") ⟨["A", "B", "C"], "A", [], [], []⟩
        [.ver ⟨"C", ("r1", "B"), "h0"⟩,
         .tss ⟨"B", true, "r1", [1, 2]⟩,
         .ver ⟨"C", ("r1", "B"), "h0"⟩]).1.delivered =
      [⟨"B", true, "r1", [1, 2]⟩, ⟨"B", true, "r1", [1, 2]⟩] ∧
    (processEvents (fun _ => "h0") ⟨["A", "B", "C"], "A", [], [], []⟩
        [.ver ⟨"C", ("r1", "B"), "h0"⟩,
         .tss ⟨"B", true, "r1", [1, 2]⟩,
         .ver ⟨"C", ("r1", "B"), "h0"⟩]).2 = [none, none, none] :=
  confirm_engine_double_delivery (fun _ => "h0")
